import Mathlib

/-!
# qtcharts `AbstractDomain` (src/domain/abstractdomain.cpp)

A shallow embedding of the coordinate-mapping core of the chart domain:
the nice-number tick algorithm, the pixel-to-data mapping, the zoom
snapshot and the signal blocking logic.

Conventions of the embedding.

* The values of a `qreal` are elements of an ordered field `K` with a floor
  function (`LinearOrderedField K`, `FloorRing K`); every definition is
  computable and runs at `K = ℚ`.  Comparisons, floors and state updates are
  exact on doubles and are modelled as such.
* The rounding of the double operations `log10`, `pow`, `/`, `*` and `-` is
  fixed by the platform and not by this file: `niceNumberWith` and
  `looseNiceNumbersWith` take these primitives as parameters, and what is
  proved of them holds for every rounding.  `niceNumber` and
  `looseNiceNumbers` are their instances with exact primitives; they are used
  for evaluation at inputs where rounding does not change the result.
* `int` is the 32-bit signed integer: a conversion from `qreal` is checked
  against its range and sums of `int`s wrap.
* An operation with no real value (`log10` of a non-positive number, a
  division by zero) yields `none`, and so does every function using it.
* A member function that emits Qt signals returns the new state together
  with the list of signals emitted, in order.
* The pure virtual `setRange` is a parameter of the functions that call it.
* The Qt library tests `qFuzzyCompare` and `qFuzzyIsNull` are parameters of
  `isEmpty` and of the comparison operators; their Qt definitions are given
  for concrete evaluation.
-/

/-- Modelled from the spec: the Qt type `QSizeF`, a width and a height, which
is declared outside this repository.  Two sizes are compared by exact equality
of both components (`setSize` is a "no-op if identical (exact equality)"). -/
structure QSizeF (K : Type) where
  width : K
  height : K
deriving DecidableEq

/-- The Qt signals of `AbstractDomain`, with their payloads. -/
inductive Signal (K : Type) where
  | updated : Signal K
  | rangeHorizontalChanged (min max : K) : Signal K
  | rangeVerticalChanged (min max : K) : Signal K
deriving DecidableEq

/-- The data members of `AbstractDomain`. -/
structure AbstractDomain (K : Type) where
  m_minX : K
  m_maxX : K
  m_minY : K
  m_maxY : K
  m_signalsBlocked : Bool
  m_zoomed : Bool
  m_zoomResetMinX : K
  m_zoomResetMaxX : K
  m_zoomResetMinY : K
  m_zoomResetMaxY : K
  m_size : QSizeF K
deriving DecidableEq

namespace AbstractDomain

/-- The type of the pure virtual member
`setRange(qreal minX, qreal maxX, qreal minY, qreal maxY)`: the new state
and the signals emitted. -/
abbrev SetRange (K : Type) : Type :=
  K → K → K → K → AbstractDomain K → AbstractDomain K × List (Signal K)

section Arithmetic

variable {K : Type} [LinearOrderedField K] [FloorRing K]

/-- Exact division of two `qreal`s; a zero divisor has no real quotient. -/
def qDiv (a b : K) : Option K := if b = 0 then none else some (a / b)

/-- The exact exponent `⌊log10 x⌋`: for `x > 0` the integer `n` with
`10 ^ n ≤ x < 10 ^ (n + 1)`; `log10` has no real value for `x ≤ 0`. -/
def floorLog10 (x : K) : Option ℤ := if 0 < x then some (Int.log 10 x) else none

/-- The exact power `10 ^ n` for an integer exponent. -/
def qPow10 (n : ℤ) : K := (10 : K) ^ n

/-- The least value of the 32-bit `int`. -/
def INT_MIN : ℤ := -2147483648

/-- The greatest value of the 32-bit `int`. -/
def INT_MAX : ℤ := 2147483647

/-- The result of an `int` addition or subtraction: two's complement
wrap-around into `[INT_MIN, INT_MAX]`. -/
def wrapInt (n : ℤ) : ℤ := (n + 2147483648) % 4294967296 - 2147483648

/-- The C++ conversion `int(v)` of a `qreal`: truncation toward zero when the
truncated value lies in `[INT_MIN, INT_MAX]`.  Outside this range the C++
standard leaves the result undefined; the model follows the x86-64 conversion
instruction, which yields `INT_MIN`. -/
def toInt (v : K) : ℤ :=
  let t : ℤ := if 0 ≤ v then ⌊v⌋ else ⌈v⌉
  if INT_MIN ≤ t ∧ t ≤ INT_MAX then t else INT_MIN

/-- `qFloor(v)`, which is `int(floor(v))`. -/
def qFloor (v : K) : ℤ := toInt ((⌊v⌋ : ℤ) : K)

/-- `qCeil(v)`, which is `int(ceil(v))`. -/
def qCeil (v : K) : ℤ := toInt ((⌈v⌉ : ℤ) : K)

/-- The double-precision primitives of `niceNumber` and `looseNiceNumbers`.
Their rounding is fixed by the platform (IEEE 754 arithmetic and the C math
library), not by this file, so they are parameters: `floorLog10 x` stands for
`qFloor(log10(x))`, `pow10 n` for `qPow(10, n)`, `div` for `/`, `mul` for `*`
and `sub` for `-`. -/
structure QRealOps (K : Type) where
  floorLog10 : K → Option ℤ
  pow10 : ℤ → K
  div : K → K → Option K
  mul : K → K → K
  sub : K → K → K

/-- `AbstractDomain::niceNumber(qreal x, bool ceiling)`, with the double
primitives as parameters. -/
def niceNumberWith (ops : QRealOps K) (x : K) (ceiling : Bool) : Option K := do
  let z : K := ops.pow10 (← ops.floorLog10 x)
  let q ← ops.div x z
  let q' : K :=
    if ceiling then
      if q ≤ 1.0 then 1
      else if q ≤ 2.0 then 2
      else if q ≤ 5.0 then 5
      else 10
    else
      if q < 1.5 then 1
      else if q < 3.0 then 2
      else if q < 7.0 then 5
      else 10
  pure (ops.mul q' z)

/-- The primitives without rounding: the exact exponent, power, quotient,
product and difference. -/
def exactOps : QRealOps K :=
  { floorLog10 := floorLog10
    pow10 := qPow10
    div := qDiv
    mul := fun a b => a * b
    sub := fun a b => a - b }

/-- `AbstractDomain::niceNumber(qreal x, bool ceiling)` with exact
primitives.  It returns what the double computation returns wherever rounding
changes neither the exponent, nor the mantissa selected, nor the product, as
for `x = 37` and `x = 120`. -/
def niceNumber (x : K) (ceiling : Bool) : Option K := niceNumberWith exactOps x ceiling

/-- `AbstractDomain::looseNiceNumbers(qreal &min, qreal &max, int &ticksCount)`:
the values written back to the three reference parameters, with the double
primitives as parameters and 32-bit `int` conversions. -/
def looseNiceNumbersWith (ops : QRealOps K) (min max : K) (ticksCount : ℤ) :
    Option (K × K × ℤ) := do
  let range ← niceNumberWith ops (ops.sub max min) true
  let step ← niceNumberWith ops (← ops.div range ((wrapInt (ticksCount - 1) : ℤ) : K)) false
  let min1 : K := (qFloor (← ops.div min step) : K)
  let max1 : K := (qCeil (← ops.div max step) : K)
  let ticksCount1 : ℤ := wrapInt (toInt (ops.sub max1 min1) + 1)
  pure (ops.mul min1 step, ops.mul max1 step, ticksCount1)

/-- `AbstractDomain::looseNiceNumbers(qreal &min, qreal &max, int &ticksCount)`
with exact primitives.  It returns what the double computation returns wherever
rounding changes none of the values written back, as for `(0.3, 9.7, 5)` and
`(1e10, 1e10 + 1, 5)`. -/
def looseNiceNumbers (min max : K) (ticksCount : ℤ) : Option (K × K × ℤ) :=
  looseNiceNumbersWith exactOps min max ticksCount

/-- `AbstractDomain::adjustLogDomainRanges(qreal &min, qreal &max)`: the
values written back to the two reference parameters. -/
def adjustLogDomainRanges (min max : K) : K × K :=
  if min ≤ 0 then
    let min1 : K := 1.0
    if max ≤ min1 then (min1, min1 + 1.0) else (min1, max)
  else (min, max)

end Arithmetic

section Members

variable {K : Type} [LinearOrderedField K]

/-- `AbstractDomain::setSize(const QSizeF &size)`. -/
def setSize (size : QSizeF K) (d : AbstractDomain K) : AbstractDomain K × List (Signal K) :=
  if d.m_size ≠ size then ({ d with m_size := size }, [Signal.updated]) else (d, [])

/-- `AbstractDomain::blockRangeSignals(bool block)`. -/
def blockRangeSignals (block : Bool) (d : AbstractDomain K) :
    AbstractDomain K × List (Signal K) :=
  if d.m_signalsBlocked ≠ block then
    let d1 : AbstractDomain K := { d with m_signalsBlocked := block }
    if !block then
      (d1, [Signal.rangeHorizontalChanged d1.m_minX d1.m_maxX,
            Signal.rangeVerticalChanged d1.m_minY d1.m_maxY])
    else (d1, [])
  else (d, [])

/-- `AbstractDomain::zoomReset()`. -/
def zoomReset (setRange : SetRange K) (d : AbstractDomain K) :
    AbstractDomain K × List (Signal K) :=
  if d.m_zoomed then
    let r := setRange d.m_zoomResetMinX d.m_zoomResetMaxX d.m_zoomResetMinY d.m_zoomResetMaxY d
    ({ r.1 with m_zoomed := false }, r.2)
  else (d, [])

/-- `AbstractDomain::storeZoomReset()`. -/
def storeZoomReset (d : AbstractDomain K) : AbstractDomain K :=
  if !d.m_zoomed then
    { d with
      m_zoomed := true
      m_zoomResetMinX := d.m_minX
      m_zoomResetMaxX := d.m_maxX
      m_zoomResetMinY := d.m_minY
      m_zoomResetMaxY := d.m_maxY }
  else d

/-- Modelled from the spec: the tolerance-based test `qFuzzyIsNull` of the Qt
library, which is outside this repository, with Qt's absolute tolerance
`10⁻¹²`: `|d| ≤ 10⁻¹²`. -/
def qFuzzyIsNull (d : K) : Bool := decide (|d| ≤ 1 / 1000000000000)

/-- The free function `operator==` on two domains, with the library test
`qFuzzyIsNull` as a parameter. -/
def operatorEq (fuzzyIsNull : K → Bool) (domain1 domain2 : AbstractDomain K) : Bool :=
  fuzzyIsNull (domain1.m_maxX - domain2.m_maxX)
    && fuzzyIsNull (domain1.m_maxY - domain2.m_maxY)
    && fuzzyIsNull (domain1.m_minX - domain2.m_minX)
    && fuzzyIsNull (domain1.m_minY - domain2.m_minY)

/-- The free function `operator!=` on two domains. -/
def operatorNe (fuzzyIsNull : K → Bool) (domain1 domain2 : AbstractDomain K) : Bool :=
  !(operatorEq fuzzyIsNull domain1 domain2)

/-- Modelled from the spec: `setRange`, pure virtual in `AbstractDomain` and
overridden outside this file.  It stores the four bounds, does not validate
`min ≤ max`, and emits the horizontal, respectively vertical, range
notification when that half of the range changed, unless notifications are
blocked. -/
def specSetRange : SetRange K := fun minX maxX minY maxY d =>
  let xChanged : Bool := decide (d.m_minX ≠ minX ∨ d.m_maxX ≠ maxX)
  let yChanged : Bool := decide (d.m_minY ≠ minY ∨ d.m_maxY ≠ maxY)
  let d1 : AbstractDomain K :=
    { d with m_minX := minX, m_maxX := maxX, m_minY := minY, m_maxY := maxY }
  (d1,
    (if xChanged && !d.m_signalsBlocked then [Signal.rangeHorizontalChanged minX maxX]
      else []) ++
    (if yChanged && !d.m_signalsBlocked then [Signal.rangeVerticalChanged minY maxY]
      else []))

/-- The contract the specification gives for any override of `setRange`: the
state after the call is the state before it with the four bounds replaced by
the arguments. -/
def StoresBounds (setRange : SetRange K) : Prop :=
  ∀ (minX maxX minY maxY : K) (d : AbstractDomain K),
    (setRange minX maxX minY maxY d).1 =
      { d with m_minX := minX, m_maxX := maxX, m_minY := minY, m_maxY := maxY }

/-- A call made by a client between two zoom resets: `setRange` or
`storeZoomReset`. -/
inductive Call (K : Type) where
  | setRange (minX maxX minY maxY : K) : Call K
  | storeZoomReset : Call K

/-- Performs one call. -/
def runCall (setRange : SetRange K) :
    Call K → AbstractDomain K → AbstractDomain K × List (Signal K)
  | Call.setRange minX maxX minY maxY, d => setRange minX maxX minY maxY d
  | Call.storeZoomReset, d => (storeZoomReset d, [])

/-- Performs a sequence of calls, first to last, collecting the signals. -/
def runCalls (setRange : SetRange K) :
    List (Call K) → AbstractDomain K → AbstractDomain K × List (Signal K)
  | [], d => (d, [])
  | c :: cs, d =>
    let r := runCall setRange c d
    let r' := runCalls setRange cs r.1
    (r'.1, r.2 ++ r'.2)

end Members

/-- A domain with range `[0, 10] × [0, 20]` on a `100 × 200` plot, signals
not blocked, not zoomed. -/
def sampleDomain : AbstractDomain ℚ :=
  { m_minX := 0, m_maxX := 10, m_minY := 0, m_maxY := 20,
    m_signalsBlocked := false, m_zoomed := false,
    m_zoomResetMinX := 0, m_zoomResetMaxX := 0, m_zoomResetMinY := 0, m_zoomResetMaxY := 0,
    m_size := ⟨100, 200⟩ }

/-- The two successive steps of the specification's description of
`adjustLogDomainRanges`: if `min ≤ 0` set `min` to `1.0`; then, if `max ≤ min`
for the possibly updated `min`, set `max` to `min + 1.0`. -/
def adjustLogDomainRangesTwoStep {K : Type} [LinearOrderedField K] (min max : K) : K × K :=
  let min1 : K := if min ≤ 0 then 1.0 else min
  let max1 : K := if max ≤ min1 then min1 + 1.0 else max
  (min1, max1)

/-- A nice number in the sense of the specification's glossary: a value of
the form `{1, 2, 5, 10} × 10 ^ n` with `n` an integer. -/
def IsNice {K : Type} [LinearOrderedField K] (v : K) : Prop :=
  ∃ m : K, (m = 1 ∨ m = 2 ∨ m = 5 ∨ m = 10) ∧ ∃ n : ℤ, v = m * qPow10 n

/-! ## Auxiliary facts about the arithmetic helpers -/

section FieldLemmas

variable {K : Type} [LinearOrderedField K]

theorem qDiv_of_ne (a : K) {b : K} (hb : b ≠ 0) : qDiv a b = some (a / b) := by
  simp [qDiv, hb]

theorem qPow10_pos (n : ℤ) : 0 < (qPow10 n : K) := by
  unfold qPow10
  positivity

theorem qPow10_succ (n : ℤ) : (qPow10 (n + 1) : K) = 10 * qPow10 n := by
  unfold qPow10
  rw [zpow_add_one₀ (by norm_num : (10 : K) ≠ 0), mul_comm]

end FieldLemmas

section ArithmeticLemmas

variable {K : Type} [LinearOrderedField K] [FloorRing K]

theorem floorLog10_of_pos {x : K} (hx : 0 < x) : floorLog10 x = some (Int.log 10 x) := by
  simp [floorLog10, hx]

/-- Over the reals the exponent is the floor of the base-10 logarithm. -/
theorem floorLog10_real {x : ℝ} (hx : 0 < x) :
    floorLog10 x = some ⌊Real.logb 10 x⌋ := by
  have h := Real.floor_logb_natCast (b := 10) hx.le
  rw [floorLog10_of_pos hx]
  simpa using h.symm

/-- The exponent is determined by the decade that contains `x`. -/
theorem log_eq_of_bounds {x : K} {n : ℤ} (h1 : qPow10 n ≤ x) (h2 : x < qPow10 (n + 1)) :
    Int.log 10 x = n := by
  have hx : 0 < x := lt_of_lt_of_le (qPow10_pos n) h1
  have hb : 1 < 10 := by norm_num
  have a1 : n ≤ Int.log 10 x := by
    rw [← Int.zpow_le_iff_le_log hb hx]
    simpa [qPow10] using h1
  have a2 : Int.log 10 x < n + 1 := by
    rw [← Int.lt_zpow_iff_log_lt hb hx]
    simpa [qPow10] using h2
  omega

/-- For positive `x`, `niceNumber` returns, with `z = 10 ^ ⌊log10 x⌋` and
`q = x / z`, the selected mantissa times `z`. -/
theorem niceNumber_of_pos {x : K} (hx : 0 < x) (ceiling : Bool) :
    niceNumber x ceiling =
      some ((if ceiling then
              if x / qPow10 (Int.log 10 x) ≤ 1 then (1 : K)
              else if x / qPow10 (Int.log 10 x) ≤ 2 then 2
              else if x / qPow10 (Int.log 10 x) ≤ 5 then 5
              else 10
            else
              if x / qPow10 (Int.log 10 x) < 3 / 2 then (1 : K)
              else if x / qPow10 (Int.log 10 x) < 3 then 2
              else if x / qPow10 (Int.log 10 x) < 7 then 5
              else 10) * qPow10 (Int.log 10 x)) := by
  have hz : (qPow10 (Int.log 10 x) : K) ≠ 0 := (qPow10_pos _).ne'
  have h15 : (1.5 : K) = 3 / 2 := by norm_num
  simp only [niceNumber, niceNumberWith, exactOps, floorLog10_of_pos hx, qDiv_of_ne x hz,
    Option.bind_eq_bind, Option.some_bind, Option.pure_def, h15]
  norm_num

/-- Evaluation of `niceNumber` once the decade of `x` is known. -/
theorem niceNumber_of_decade {x : K} {n : ℤ} (h1 : qPow10 n ≤ x) (h2 : x < qPow10 (n + 1))
    (ceiling : Bool) :
    niceNumber x ceiling =
      some ((if ceiling then
              if x / qPow10 n ≤ 1 then (1 : K)
              else if x / qPow10 n ≤ 2 then 2
              else if x / qPow10 n ≤ 5 then 5
              else 10
            else
              if x / qPow10 n < 3 / 2 then (1 : K)
              else if x / qPow10 n < 3 then 2
              else if x / qPow10 n < 7 then 5
              else 10) * qPow10 n) := by
  have hx : 0 < x := lt_of_lt_of_le (qPow10_pos n) h1
  rw [niceNumber_of_pos hx, log_eq_of_bounds h1 h2]

/-- The conversion `int(v)` is exact on an integer of the 32-bit range. -/
theorem toInt_intCast_of_range {n : ℤ} (h1 : INT_MIN ≤ n) (h2 : n ≤ INT_MAX) :
    toInt (n : K) = n := by
  unfold toInt
  split_ifs <;> simp_all

/-- The conversion `int(v)` of an integer beyond `INT_MAX` yields `INT_MIN`. -/
theorem toInt_intCast_of_gt {n : ℤ} (h : INT_MAX < n) : toInt (n : K) = INT_MIN := by
  have h0 : (0 : K) ≤ (n : K) := by
    have : (0 : ℤ) ≤ n := le_trans (by decide) h.le
    exact_mod_cast this
  simp [toInt, h0, not_le.mpr h]

/-- The body of `looseNiceNumbers` once `range` and `step` are known. -/
theorem looseNiceNumbers_of_step {min max range step : K} {ticksCount : ℤ}
    (hr : niceNumber (max - min) true = some range)
    (ht : ((wrapInt (ticksCount - 1) : ℤ) : K) ≠ 0)
    (hs : niceNumber (range / ((wrapInt (ticksCount - 1) : ℤ) : K)) false = some step)
    (hstep : step ≠ 0) :
    looseNiceNumbers min max ticksCount =
      some ((qFloor (min / step) : K) * step, (qCeil (max / step) : K) * step,
        wrapInt (toInt ((qCeil (max / step) : K) - (qFloor (min / step) : K)) + 1)) := by
  have hr' : niceNumberWith exactOps (max - min) true = some range := hr
  have hs' : niceNumberWith exactOps (range / ((wrapInt (ticksCount - 1) : ℤ) : K)) false
      = some step := hs
  simp only [looseNiceNumbers, looseNiceNumbersWith, exactOps, qDiv_of_ne _ ht,
    qDiv_of_ne _ hstep, Option.bind_eq_bind, Option.some_bind, Option.pure_def]
  simp only [exactOps] at hr' hs'
  rw [hr']
  simp only [Option.some_bind, qDiv_of_ne _ ht]
  rw [hs']
  simp only [Option.some_bind, qDiv_of_ne _ hstep]

end ArithmeticLemmas

/-- A candidate `c` is not strictly closer to `q` than `m` when it is `m`
itself or `q` lies on the side of `m` of their midpoint. -/
theorem not_closer_of_midpoint {K : Type} [LinearOrderedField K] {q m c : K}
    (h : c = m ∨ (c ≤ m ∧ m + c ≤ 2 * q) ∨ (m ≤ c ∧ 2 * q ≤ m + c)) :
    ¬ |c - q| < |m - q| := by
  rw [not_lt]
  rcases h with rfl | h
  · exact le_rfl
  · rcases abs_cases (c - q) with ⟨e, _⟩ | ⟨e, _⟩ <;>
      rcases abs_cases (m - q) with ⟨f, _⟩ | ⟨f, _⟩ <;>
      rw [e, f] <;>
      rcases h with ⟨h1, h2⟩ | ⟨h1, h2⟩ <;> linarith

/-! ## Claims about `niceNumber` -/

section NiceNumberClaims

variable {K : Type} [LinearOrderedField K] [FloorRing K]

/-- C2, counterexample: at `x = 3.2` the round mode returns `5`, although the
nice number `2` is strictly closer to `3.2` (distance `1.2` against `1.8`). -/
theorem niceNumber_round_not_nearest :
    niceNumber (3.2 : ℚ) false = some 5 ∧ IsNice (2 : ℚ) ∧
      |(2 : ℚ) - 3.2| < |(5 : ℚ) - 3.2| := by
  have hlog : Int.log 10 (3.2 : ℚ) = 0 :=
    log_eq_of_bounds (by norm_num [qPow10]) (by norm_num [qPow10])
  refine ⟨?_, ⟨2, by norm_num, 0, by norm_num [qPow10]⟩, ?_⟩
  · rw [niceNumber_of_pos (by norm_num) false, hlog]
    norm_num [qPow10]
  · rw [abs_of_neg (by norm_num), abs_of_pos (by norm_num)]
    norm_num

/-- C2, amended: whatever the rounding of the double primitives, when the
code computes the exponent `n` and the quotient `q = x / qPow(10, n)`,
`niceNumber(x, false)` returns the product of `qPow(10, n)` with the mantissa
`m` that is `1`, `2`, `5` or `10` according to `q < 1.5`, `q < 3.0`, `q < 7.0`
or `q ≥ 7.0`.  No element of `{1, 2, 5, 10}` is strictly closer to `q` than
`m` exactly when `q` lies outside `[3, 3.5)` and `[7, 7.5)`. -/
theorem niceNumberWith_round_thresholds {K : Type} [LinearOrderedField K]
    (ops : QRealOps K) (x q : K) (n : ℤ)
    (hn : ops.floorLog10 x = some n) (hq : ops.div x (ops.pow10 n) = some q) :
    ∃ m : K,
      m = (if q < 1.5 then 1 else if q < 3.0 then 2 else if q < 7.0 then 5 else 10) ∧
      niceNumberWith ops x false = some (ops.mul m (ops.pow10 n)) ∧
      ((∀ c : K, c = 1 ∨ c = 2 ∨ c = 5 ∨ c = 10 → ¬ |c - q| < |m - q|) ↔
        ¬ (3 ≤ q ∧ q < 3.5) ∧ ¬ (7 ≤ q ∧ q < 7.5)) := by
  refine ⟨_, rfl, ?_, ?_⟩
  · simp [niceNumberWith, hn, hq]
  · have e0 : (1.5 : K) = 3 / 2 := by norm_num
    have e1 : (3.5 : K) = 7 / 2 := by norm_num
    have e2 : (7.5 : K) = 15 / 2 := by norm_num
    have e3 : (3.0 : K) = 3 := by norm_num
    have e4 : (7.0 : K) = 7 := by norm_num
    simp only [e0, e1, e2, e3, e4]
    by_cases c1 : q < 3 / 2
    · simp only [c1, if_true]
      refine ⟨fun _ => ⟨?_, ?_⟩, fun _ c hc => not_closer_of_midpoint ?_⟩
      · rintro ⟨a, _⟩; linarith
      · rintro ⟨a, _⟩; linarith
      · rcases hc with rfl | rfl | rfl | rfl
        · exact Or.inl rfl
        · exact Or.inr (Or.inr ⟨by norm_num, by linarith⟩)
        · exact Or.inr (Or.inr ⟨by norm_num, by linarith⟩)
        · exact Or.inr (Or.inr ⟨by norm_num, by linarith⟩)
    · simp only [c1, if_false]
      have d1 : 3 / 2 ≤ q := le_of_not_lt c1
      by_cases c2 : q < 3
      · simp only [c2, if_true]
        refine ⟨fun _ => ⟨?_, ?_⟩, fun _ c hc => not_closer_of_midpoint ?_⟩
        · rintro ⟨a, _⟩; linarith
        · rintro ⟨a, _⟩; linarith
        · rcases hc with rfl | rfl | rfl | rfl
          · exact Or.inr (Or.inl ⟨by norm_num, by linarith⟩)
          · exact Or.inl rfl
          · exact Or.inr (Or.inr ⟨by norm_num, by linarith⟩)
          · exact Or.inr (Or.inr ⟨by norm_num, by linarith⟩)
      · simp only [c2, if_false]
        have d2 : 3 ≤ q := le_of_not_lt c2
        by_cases c3 : q < 7
        · simp only [c3, if_true]
          constructor
          · intro hnear
            refine ⟨?_, ?_⟩
            · rintro ⟨_, b⟩
              apply hnear 2 (Or.inr (Or.inl rfl))
              rw [abs_of_nonpos (by linarith), abs_of_nonneg (by linarith)]
              linarith
            · rintro ⟨a, _⟩
              linarith
          · rintro ⟨k1, _⟩ c hc
            have k : 7 / 2 ≤ q := by
              by_contra hlt
              exact k1 ⟨d2, lt_of_not_le hlt⟩
            apply not_closer_of_midpoint
            rcases hc with rfl | rfl | rfl | rfl
            · exact Or.inr (Or.inl ⟨by norm_num, by linarith⟩)
            · exact Or.inr (Or.inl ⟨by norm_num, by linarith⟩)
            · exact Or.inl rfl
            · exact Or.inr (Or.inr ⟨by norm_num, by linarith⟩)
        · simp only [c3, if_false]
          have d3 : 7 ≤ q := le_of_not_lt c3
          constructor
          · intro hnear
            refine ⟨?_, ?_⟩
            · rintro ⟨_, b⟩
              linarith
            · rintro ⟨_, b⟩
              apply hnear 5 (Or.inr (Or.inr (Or.inl rfl)))
              rw [abs_of_nonpos (by linarith), abs_of_nonneg (by linarith)]
              linarith
          · rintro ⟨_, k1⟩ c hc
            have k : 15 / 2 ≤ q := by
              by_contra hlt
              exact k1 ⟨d3, lt_of_not_le hlt⟩
            apply not_closer_of_midpoint
            rcases hc with rfl | rfl | rfl | rfl
            · exact Or.inr (Or.inl ⟨by norm_num, by linarith⟩)
            · exact Or.inr (Or.inl ⟨by norm_num, by linarith⟩)
            · exact Or.inr (Or.inl ⟨by norm_num, by linarith⟩)
            · exact Or.inl rfl

/-- Witness for the amended C2: the exact primitives at `x = 37`, where the
exponent is `1` and the quotient is `3.7`. -/
theorem niceNumberWith_round_thresholds_witness :
    (exactOps (K := ℚ)).floorLog10 37 = some 1 ∧
    (exactOps (K := ℚ)).div 37 ((exactOps (K := ℚ)).pow10 1) = some 3.7 ∧
    niceNumberWith (exactOps (K := ℚ)) 37 false = some 50 := by
  have hn : (exactOps (K := ℚ)).floorLog10 37 = some 1 := by
    show floorLog10 (37 : ℚ) = some 1
    rw [floorLog10_of_pos (by norm_num),
      log_eq_of_bounds (n := 1) (by norm_num [qPow10]) (by norm_num [qPow10])]
  have hq : (exactOps (K := ℚ)).div 37 ((exactOps (K := ℚ)).pow10 1) = some 3.7 := by
    show qDiv (37 : ℚ) (qPow10 1) = some 3.7
    rw [qDiv_of_ne _ (qPow10_pos 1).ne']
    norm_num [qPow10]
  obtain ⟨m, hm, hr, _⟩ := niceNumberWith_round_thresholds exactOps (37 : ℚ) 3.7 1 hn hq
  refine ⟨hn, hq, ?_⟩
  rw [hr, hm]
  norm_num [exactOps, qPow10]

end NiceNumberClaims

/-! ## Claims about `looseNiceNumbers` -/

section LooseNiceNumbersClaims

variable {K : Type} [LinearOrderedField K] [FloorRing K]

/-- The worked example of the specification: `(0.3, 9.7, 5)` becomes
`(0, 10, 6)`, with `range = 10` and `step = 2`. -/
theorem looseNiceNumbers_example : looseNiceNumbers (0.3 : ℚ) 9.7 5 = some (0, 10, 6) := by
  have hw : wrapInt (5 - 1) = 4 := by decide
  have hr : niceNumber ((9.7 : ℚ) - 0.3) true = some 10 := by
    rw [niceNumber_of_decade (n := 0) (by norm_num [qPow10]) (by norm_num [qPow10])]
    norm_num [qPow10]
  have hs : niceNumber ((10 : ℚ) / ((wrapInt (5 - 1) : ℤ) : ℚ)) false = some 2 := by
    rw [hw, niceNumber_of_decade (n := 0) (by norm_num [qPow10]) (by norm_num [qPow10])]
    norm_num [qPow10]
  have hf : ⌊(0.3 : ℚ) / 2⌋ = 0 := by
    rw [Int.floor_eq_iff]; norm_num
  have hc : ⌈(9.7 : ℚ) / 2⌉ = 5 := by
    rw [Int.ceil_eq_iff]; norm_num
  have hqf : qFloor ((0.3 : ℚ) / 2) = 0 := by
    rw [qFloor, hf]
    exact toInt_intCast_of_range (by decide) (by decide)
  have hqc : qCeil ((9.7 : ℚ) / 2) = 5 := by
    rw [qCeil, hc]
    exact toInt_intCast_of_range (by decide) (by decide)
  have hd : toInt (((5 : ℤ) : ℚ) - ((0 : ℤ) : ℚ)) = 5 := by
    have := toInt_intCast_of_range (K := ℚ) (n := 5) (by decide) (by decide)
    simpa using this
  have hw6 : wrapInt (5 + 1) = 6 := by decide
  rw [looseNiceNumbers_of_step hr (by rw [hw]; norm_num) hs (by norm_num), hqf, hqc, hd, hw6]
  norm_num

/-- The input `(10¹⁰, 10¹⁰ + 1, 5)`: `range = 1` and `step = 0.2`, so that the
quotients `5·10¹⁰` and `5·10¹⁰ + 5` exceed `INT_MAX`; both conversions yield
`INT_MIN` and the values written back are `(-429496729.6, -429496729.6, 1)`. -/
theorem looseNiceNumbers_overflow :
    niceNumber ((10000000001 : ℚ) - 10000000000) true = some 1 ∧
    niceNumber ((1 : ℚ) / ((wrapInt (5 - 1) : ℤ) : ℚ)) false = some (1 / 5) ∧
    looseNiceNumbers (10000000000 : ℚ) 10000000001 5 =
      some (-2147483648 / 5, -2147483648 / 5, 1) := by
  have hw : wrapInt (5 - 1) = 4 := by decide
  have hr : niceNumber ((10000000001 : ℚ) - 10000000000) true = some 1 := by
    rw [niceNumber_of_decade (n := 0) (by norm_num [qPow10]) (by norm_num [qPow10])]
    norm_num [qPow10]
  have hs : niceNumber ((1 : ℚ) / ((wrapInt (5 - 1) : ℤ) : ℚ)) false = some (1 / 5) := by
    rw [hw, niceNumber_of_decade (n := -1) (by norm_num [qPow10]) (by norm_num [qPow10])]
    norm_num [qPow10]
  have hf : ⌊(10000000000 : ℚ) / (1 / 5)⌋ = 50000000000 := by
    rw [Int.floor_eq_iff]; norm_num
  have hc : ⌈(10000000001 : ℚ) / (1 / 5)⌉ = 50000000005 := by
    rw [Int.ceil_eq_iff]; norm_num
  have hqf : qFloor ((10000000000 : ℚ) / (1 / 5)) = INT_MIN := by
    rw [qFloor, hf]
    exact toInt_intCast_of_gt (by decide)
  have hqc : qCeil ((10000000001 : ℚ) / (1 / 5)) = INT_MIN := by
    rw [qCeil, hc]
    exact toInt_intCast_of_gt (by decide)
  have hd : toInt (((INT_MIN : ℤ) : ℚ) - ((INT_MIN : ℤ) : ℚ)) = 0 := by
    have := toInt_intCast_of_range (K := ℚ) (n := 0) (by decide) (by decide)
    simpa using this
  have hw1 : wrapInt (0 + 1) = 1 := by decide
  refine ⟨hr, hs, ?_⟩
  rw [looseNiceNumbers_of_step hr (by rw [hw]; norm_num) hs (by norm_num), hqf, hqc, hd, hw1]
  norm_num [INT_MIN]

/-- C3, failing input: for `(10¹⁰, 10¹⁰ + 1, 5)`, where `min < max` and
`ticksCount ≥ 2`, `looseNiceNumbers` writes back `max' = -429496729.6`, which is
below `max`: the returned range does not contain the input range. -/
theorem looseNiceNumbers_contains_fails :
    (10000000000 : ℚ) < 10000000001 ∧ (2 : ℤ) ≤ 5 ∧
    ∃ min' max' ticksCount',
      looseNiceNumbers (10000000000 : ℚ) 10000000001 5 = some (min', max', ticksCount') ∧
      max' = -429496729.6 ∧ max' < 10000000001 := by
  refine ⟨by norm_num, by norm_num, _, _, _, looseNiceNumbers_overflow.2.2, ?_, ?_⟩ <;>
    norm_num

/-- C4, failing input: for `(10¹⁰, 10¹⁰ + 1, 5)` the step is `0.2`, and the
values written back are not `step * ⌊min / step⌋ = 10¹⁰`,
`step * ⌈max / step⌉ = 10¹⁰ + 1` and `⌈max / step⌉ - ⌊min / step⌋ + 1 = 6`. -/
theorem looseNiceNumbers_spec_fails :
    ∃ range step min' max' ticksCount',
      niceNumber ((10000000001 : ℚ) - 10000000000) true = some range ∧
      niceNumber (range / (((5 : ℤ) : ℚ) - 1)) false = some step ∧
      looseNiceNumbers (10000000000 : ℚ) 10000000001 5 = some (min', max', ticksCount') ∧
      step * ⌊(10000000000 : ℚ) / step⌋ = 10000000000 ∧ min' ≠ 10000000000 ∧
      step * ⌈(10000000001 : ℚ) / step⌉ = 10000000001 ∧ max' ≠ 10000000001 ∧
      ⌈(10000000001 : ℚ) / step⌉ - ⌊(10000000000 : ℚ) / step⌋ + 1 = 6 ∧
      ticksCount' ≠ 6 := by
  have hf : ⌊(10000000000 : ℚ) / (1 / 5)⌋ = 50000000000 := by
    rw [Int.floor_eq_iff]; norm_num
  have hc : ⌈(10000000001 : ℚ) / (1 / 5)⌉ = 50000000005 := by
    rw [Int.ceil_eq_iff]; norm_num
  have hs := looseNiceNumbers_overflow.2.1
  have hw : wrapInt (5 - 1) = 4 := by decide
  rw [hw] at hs
  refine ⟨1, 1 / 5, _, _, _, looseNiceNumbers_overflow.1, ?_, looseNiceNumbers_overflow.2.2,
    ?_, ?_, ?_, ?_, ?_, ?_⟩
  · have e : (1 : ℚ) / (((5 : ℤ) : ℚ) - 1) = 1 / ((4 : ℤ) : ℚ) := by norm_num
    rw [e]
    exact hs
  · rw [hf]; norm_num
  · norm_num
  · rw [hc]; norm_num
  · norm_num
  · rw [hf, hc]; norm_num
  · norm_num

/-- C19, failing input: for `(10¹⁰, 10¹⁰ + 1, 5)`, where `min < max` and
`ticksCount ≥ 2`, `looseNiceNumbers` writes back `min' = max'` and
`ticksCount' = 1`: the result is degenerate. -/
theorem looseNiceNumbers_degenerate :
    (10000000000 : ℚ) < 10000000001 ∧ (2 : ℤ) ≤ 5 ∧
    ∃ min' max' ticksCount',
      looseNiceNumbers (10000000000 : ℚ) 10000000001 5 = some (min', max', ticksCount') ∧
      min' = max' ∧ ticksCount' = 1 ∧ ¬ (min' < max') ∧ ¬ (2 ≤ ticksCount') := by
  refine ⟨by norm_num, by norm_num, _, _, _, looseNiceNumbers_overflow.2.2, rfl, rfl, ?_, ?_⟩ <;>
    norm_num

end LooseNiceNumbersClaims

/-! ## Auxiliary facts about the pixel mapping -/

section MappingLemmas

variable {K : Type} [LinearOrderedField K]

end MappingLemmas

/-! ## Claims about the zoom snapshot -/

section ZoomClaims

theorem specSetRange_storesBounds {K : Type} [LinearOrderedField K] :
    StoresBounds (specSetRange (K := K)) :=
  fun _ _ _ _ _ => rfl

variable {K : Type}

/-- While the domain is zoomed, no sequence of `setRange` and
`storeZoomReset` calls changes the zoomed flag or the snapshot. -/
theorem runCalls_keeps_snapshot {setRange : SetRange K} (hset : StoresBounds setRange)
    (calls : List (Call K)) (d : AbstractDomain K) (hz : d.m_zoomed = true) :
    (runCalls setRange calls d).1.m_zoomed = true ∧
    (runCalls setRange calls d).1.m_zoomResetMinX = d.m_zoomResetMinX ∧
    (runCalls setRange calls d).1.m_zoomResetMaxX = d.m_zoomResetMaxX ∧
    (runCalls setRange calls d).1.m_zoomResetMinY = d.m_zoomResetMinY ∧
    (runCalls setRange calls d).1.m_zoomResetMaxY = d.m_zoomResetMaxY := by
  induction calls generalizing d with
  | nil => exact ⟨hz, rfl, rfl, rfl, rfl⟩
  | cons c cs ih =>
    have step : (runCall setRange c d).1.m_zoomed = true ∧
        (runCall setRange c d).1.m_zoomResetMinX = d.m_zoomResetMinX ∧
        (runCall setRange c d).1.m_zoomResetMaxX = d.m_zoomResetMaxX ∧
        (runCall setRange c d).1.m_zoomResetMinY = d.m_zoomResetMinY ∧
        (runCall setRange c d).1.m_zoomResetMaxY = d.m_zoomResetMaxY := by
      cases c with
      | setRange a b c e =>
        simp [runCall, hset a b c e d, hz]
      | storeZoomReset =>
        simp [runCall, storeZoomReset, hz]
    obtain ⟨s0, s1, s2, s3, s4⟩ := step
    obtain ⟨i0, i1, i2, i3, i4⟩ := ih (runCall setRange c d).1 s0
    simp only [runCalls]
    exact ⟨i0, i1.trans s1, i2.trans s2, i3.trans s3, i4.trans s4⟩

/-- C6: let `setRange` store the four bounds it is given.  After
`storeZoomReset()` on a non-zoomed domain with range `R0`, followed by any
sequence of `setRange` and `storeZoomReset` calls, `zoomReset()` calls
`setRange` with `R0`, leaves the range equal to `R0` and clears the zoomed
flag; a second `zoomReset()` right after it changes nothing and emits nothing,
whatever `setRange` is; and `zoomReset()` on any non-zoomed domain changes
nothing and emits nothing, whatever `setRange` is. -/
theorem zoomReset_restores (setRange : SetRange K) (hset : StoresBounds setRange)
    (d : AbstractDomain K) (hz : d.m_zoomed = false) (calls : List (Call K)) :
    ((zoomReset setRange (runCalls setRange calls (storeZoomReset d)).1).1.m_minX = d.m_minX ∧
     (zoomReset setRange (runCalls setRange calls (storeZoomReset d)).1).1.m_maxX = d.m_maxX ∧
     (zoomReset setRange (runCalls setRange calls (storeZoomReset d)).1).1.m_minY = d.m_minY ∧
     (zoomReset setRange (runCalls setRange calls (storeZoomReset d)).1).1.m_maxY = d.m_maxY) ∧
    (zoomReset setRange (runCalls setRange calls (storeZoomReset d)).1).1.m_zoomed = false ∧
    (zoomReset setRange (runCalls setRange calls (storeZoomReset d)).1).2 =
      (setRange d.m_minX d.m_maxX d.m_minY d.m_maxY
        (runCalls setRange calls (storeZoomReset d)).1).2 ∧
    (∀ other : SetRange K,
      zoomReset other (zoomReset setRange (runCalls setRange calls (storeZoomReset d)).1).1 =
        ((zoomReset setRange (runCalls setRange calls (storeZoomReset d)).1).1, [])) ∧
    (∀ (other : SetRange K) (e : AbstractDomain K), e.m_zoomed = false →
      zoomReset other e = (e, [])) := by
  have hs : (storeZoomReset d).m_zoomed = true ∧
      (storeZoomReset d).m_zoomResetMinX = d.m_minX ∧
      (storeZoomReset d).m_zoomResetMaxX = d.m_maxX ∧
      (storeZoomReset d).m_zoomResetMinY = d.m_minY ∧
      (storeZoomReset d).m_zoomResetMaxY = d.m_maxY := by
    simp [storeZoomReset, hz]
  obtain ⟨k0, k1, k2, k3, k4⟩ := runCalls_keeps_snapshot hset calls (storeZoomReset d) hs.1
  rw [hs.2.1] at k1
  rw [hs.2.2.1] at k2
  rw [hs.2.2.2.1] at k3
  rw [hs.2.2.2.2] at k4
  generalize (runCalls setRange calls (storeZoomReset d)).1 = d1 at k0 k1 k2 k3 k4 ⊢
  have hnoop : ∀ (other : SetRange K) (e : AbstractDomain K), e.m_zoomed = false →
      zoomReset other e = (e, []) := by
    intro other e he
    simp [zoomReset, he]
  have hr : zoomReset setRange d1 =
      ({ (setRange d.m_minX d.m_maxX d.m_minY d.m_maxY d1).1 with m_zoomed := false },
        (setRange d.m_minX d.m_maxX d.m_minY d.m_maxY d1).2) := by
    simp [zoomReset, k0, k1, k2, k3, k4]
  rw [hr, hset]
  exact ⟨⟨rfl, rfl, rfl, rfl⟩, rfl, rfl, fun other => hnoop other _ rfl, hnoop⟩

/-- Witness for C6: on `sampleDomain`, with the modelled `setRange`, two
range changes around a second `storeZoomReset()` are undone by `zoomReset()`. -/
theorem zoomReset_restores_witness :
    StoresBounds (specSetRange (K := ℚ)) ∧ sampleDomain.m_zoomed = false ∧
    (zoomReset specSetRange (runCalls specSetRange
      [Call.setRange 1 2 3 4, Call.storeZoomReset, Call.setRange 5 6 7 8]
      (storeZoomReset sampleDomain)).1).1.m_maxX = 10 ∧
    (zoomReset specSetRange (runCalls specSetRange
      [Call.setRange 1 2 3 4, Call.storeZoomReset, Call.setRange 5 6 7 8]
      (storeZoomReset sampleDomain)).1).1.m_zoomed = false :=
  ⟨specSetRange_storesBounds, rfl,
    (zoomReset_restores specSetRange specSetRange_storesBounds sampleDomain rfl
      [Call.setRange 1 2 3 4, Call.storeZoomReset, Call.setRange 5 6 7 8]).1.2.1,
    (zoomReset_restores specSetRange specSetRange_storesBounds sampleDomain rfl
      [Call.setRange 1 2 3 4, Call.storeZoomReset, Call.setRange 5 6 7 8]).2.1⟩

/-- C7: `storeZoomReset()` on a non-zoomed domain sets the zoomed flag and
takes the current range as snapshot; on a zoomed domain it changes nothing.
Hence it is idempotent, a second call after the current range was changed
keeps the snapshot of the first, and in every case the current range, the
size and the blocked flag are left as they were. -/
theorem storeZoomReset_idempotent (d : AbstractDomain K) :
    (d.m_zoomed = false → storeZoomReset d =
      { d with
        m_zoomed := true
        m_zoomResetMinX := d.m_minX
        m_zoomResetMaxX := d.m_maxX
        m_zoomResetMinY := d.m_minY
        m_zoomResetMaxY := d.m_maxY }) ∧
    (d.m_zoomed = true → storeZoomReset d = d) ∧
    storeZoomReset (storeZoomReset d) = storeZoomReset d ∧
    (d.m_zoomed = false → ∀ minX maxX minY maxY : K,
      storeZoomReset { storeZoomReset d with
          m_minX := minX, m_maxX := maxX, m_minY := minY, m_maxY := maxY } =
        { storeZoomReset d with
          m_minX := minX, m_maxX := maxX, m_minY := minY, m_maxY := maxY } ∧
      (storeZoomReset { storeZoomReset d with
          m_minX := minX, m_maxX := maxX, m_minY := minY, m_maxY := maxY }).m_zoomResetMinX
        = d.m_minX ∧
      (storeZoomReset { storeZoomReset d with
          m_minX := minX, m_maxX := maxX, m_minY := minY, m_maxY := maxY }).m_zoomResetMaxX
        = d.m_maxX ∧
      (storeZoomReset { storeZoomReset d with
          m_minX := minX, m_maxX := maxX, m_minY := minY, m_maxY := maxY }).m_zoomResetMinY
        = d.m_minY ∧
      (storeZoomReset { storeZoomReset d with
          m_minX := minX, m_maxX := maxX, m_minY := minY, m_maxY := maxY }).m_zoomResetMaxY
        = d.m_maxY) ∧
    ((storeZoomReset d).m_minX = d.m_minX ∧ (storeZoomReset d).m_maxX = d.m_maxX ∧
      (storeZoomReset d).m_minY = d.m_minY ∧ (storeZoomReset d).m_maxY = d.m_maxY ∧
      (storeZoomReset d).m_size = d.m_size ∧
      (storeZoomReset d).m_signalsBlocked = d.m_signalsBlocked) := by
  refine ⟨?_, ?_, ?_, ?_, ?_⟩
  · intro h
    simp [storeZoomReset, h]
  · intro h
    simp [storeZoomReset, h]
  · cases h : d.m_zoomed <;> simp [storeZoomReset, h]
  · intro h minX maxX minY maxY
    simp [storeZoomReset, h]
  · cases h : d.m_zoomed <;> simp [storeZoomReset, h]

/-- Witness for C7 on `sampleDomain`, which is not zoomed: the snapshot taken
by the first call survives a change of range and a second call. -/
theorem storeZoomReset_idempotent_witness :
    sampleDomain.m_zoomed = false ∧
    (storeZoomReset { storeZoomReset sampleDomain with
        m_minX := 1, m_maxX := 2, m_minY := 3, m_maxY := 4 }).m_zoomResetMaxX = 10 :=
  ⟨rfl, ((storeZoomReset_idempotent sampleDomain).2.2.2.1 rfl 1 2 3 4).2.2.1⟩

end ZoomClaims

/-! ## Claims about the notifications -/

section SignalClaims

variable {K : Type}

/-- The state after `blockRangeSignals(block)`: only the blocked flag may
differ, and it equals `block`. -/
theorem blockRangeSignals_state (d : AbstractDomain K) (block : Bool) :
    (blockRangeSignals block d).1 = { d with m_signalsBlocked := block } := by
  cases h : d.m_signalsBlocked <;> cases block <;> simp [blockRangeSignals, h] <;>
    cases d <;> simp_all

/-- C8: `blockRangeSignals(false)` on a blocked domain emits exactly the
horizontal notification with the current `(minX, maxX)` followed by the
vertical one with the current `(minY, maxY)`; `blockRangeSignals(b)` with `b`
the current flag emits nothing and changes nothing; `blockRangeSignals(true)`
never emits; and every call leaves all members but the blocked flag as they
were. -/
theorem blockRangeSignals_spec (d : AbstractDomain K) (block : Bool) :
    (d.m_signalsBlocked = true →
      blockRangeSignals false d =
        ({ d with m_signalsBlocked := false },
          [Signal.rangeHorizontalChanged d.m_minX d.m_maxX,
           Signal.rangeVerticalChanged d.m_minY d.m_maxY])) ∧
    blockRangeSignals d.m_signalsBlocked d = (d, []) ∧
    (blockRangeSignals true d).2 = [] ∧
    (blockRangeSignals block d).1 = { d with m_signalsBlocked := block } := by
  refine ⟨?_, ?_, ?_, ?_⟩
  · intro h
    simp [blockRangeSignals, h]
  · simp [blockRangeSignals]
  · cases h : d.m_signalsBlocked <;> simp [blockRangeSignals, h]
  · exact blockRangeSignals_state d block

/-- Witness for C8: blocking `sampleDomain` and unblocking it again emits the
two catch-up notifications with the current range. -/
theorem blockRangeSignals_spec_witness :
    (blockRangeSignals true sampleDomain).1.m_signalsBlocked = true ∧
    (blockRangeSignals false (blockRangeSignals true sampleDomain).1).2 =
      [Signal.rangeHorizontalChanged 0 10, Signal.rangeVerticalChanged 0 20] :=
  ⟨rfl, congrArg Prod.snd
    ((blockRangeSignals_spec (blockRangeSignals true sampleDomain).1 false).1 rfl)⟩

/-- C9, counterexample: after `blockRangeSignals(true)` the signals of
`sampleDomain` are blocked and its size is `100 × 200`; `setSize` with the
different size `1 × 1` still emits the `updated` notification. -/
theorem setSize_emits_while_blocked :
    (blockRangeSignals true sampleDomain).1.m_signalsBlocked = true ∧
    (blockRangeSignals true sampleDomain).1.m_size ≠ ⟨1, 1⟩ ∧
    (setSize ⟨1, 1⟩ (blockRangeSignals true sampleDomain).1).2 = [Signal.updated] := by
  refine ⟨rfl, by decide, by decide⟩

/-- C9, amended: `blockRangeSignals` does not suppress the resize
notification.  For every domain state, blocked or not, and every size
different from the current one, `setSize` stores the size and emits exactly
one `updated` notification; this holds in particular right after
`blockRangeSignals(true)`. -/
theorem setSize_not_suppressed [LinearOrderedField K] (d : AbstractDomain K) (size : QSizeF K)
    (h : d.m_size ≠ size) :
    setSize size d = ({ d with m_size := size }, [Signal.updated]) ∧
    (setSize size (blockRangeSignals true d).1).2 = [Signal.updated] ∧
    (blockRangeSignals true d).1.m_signalsBlocked = true := by
  have hb : (blockRangeSignals true d).1 = { d with m_signalsBlocked := true } :=
    blockRangeSignals_state d true
  refine ⟨by simp [setSize, h], ?_, by rw [hb]⟩
  rw [hb]
  simp [setSize, h]

/-- Witness for the amended C9 on `sampleDomain` and the size `1 × 1`. -/
theorem setSize_not_suppressed_witness :
    sampleDomain.m_size ≠ ⟨1, 1⟩ ∧
    (setSize ⟨1, 1⟩ (blockRangeSignals true sampleDomain).1).2 = [Signal.updated] :=
  ⟨by decide, (setSize_not_suppressed sampleDomain ⟨1, 1⟩ (by decide)).2.1⟩

end SignalClaims

/-! ## Claims about `adjustLogDomainRanges` -/

section LogRangeClaims

variable {K : Type} [LinearOrderedField K]

/-- C10, counterexample: for `(min, max) = (5, 3)` the code returns `(5, 3)`,
whereas the two successive steps of the claim give `(5, 6)`. -/
theorem adjustLogDomainRanges_not_two_step :
    adjustLogDomainRanges (5 : ℚ) 3 = (5, 3) ∧
    adjustLogDomainRangesTwoStep (5 : ℚ) 3 = (5, 6) ∧
    adjustLogDomainRanges (5 : ℚ) 3 ≠ adjustLogDomainRangesTwoStep (5 : ℚ) 3 := by
  have h1 : adjustLogDomainRanges (5 : ℚ) 3 = (5, 3) := by
    norm_num [adjustLogDomainRanges]
  have h2 : adjustLogDomainRangesTwoStep (5 : ℚ) 3 = (5, 6) := by
    norm_num [adjustLogDomainRangesTwoStep]
  refine ⟨h1, h2, ?_⟩
  rw [h1, h2]
  norm_num

/-- C10, amended: the second step is nested in the first.  If `min ≤ 0`,
`adjustLogDomainRanges` sets `min` to `1.0` and then, if `max ≤ 1.0`, sets
`max` to `2.0`; if `min > 0` it changes neither value.  Its result is that of
the two successive steps exactly when `min ≤ 0` or `max > min`. -/
theorem adjustLogDomainRanges_nested (min max : K) :
    (min ≤ 0 → adjustLogDomainRanges min max = (1, if max ≤ 1 then 2 else max)) ∧
    (0 < min → adjustLogDomainRanges min max = (min, max)) ∧
    (adjustLogDomainRanges min max = adjustLogDomainRangesTwoStep min max ↔
      (min ≤ 0 ∨ min < max)) := by
  have e1 : (1.0 : K) = 1 := by norm_num
  refine ⟨?_, ?_, ?_⟩
  · intro h
    simp only [adjustLogDomainRanges, h, if_true, e1]
    split_ifs <;> norm_num
  · intro h
    simp [adjustLogDomainRanges, not_le.mpr h]
  · by_cases h : min ≤ 0
    · simp only [adjustLogDomainRanges, adjustLogDomainRangesTwoStep, h, if_true, true_or,
        iff_true]
      split_ifs <;> rfl
    · have hlt : ¬ max ≤ min ↔ min < max := not_le
      simp only [adjustLogDomainRanges, adjustLogDomainRangesTwoStep, h, if_false, false_or,
        e1]
      by_cases hm : max ≤ min
      · simp only [hm, if_true, Prod.mk.injEq, true_and]
        constructor
        · intro he
          linarith
        · intro hlt'
          exact absurd hm (not_le.mpr hlt')
      · simp only [hm, if_false, true_iff]
        exact not_le.mp hm

/-- Witness for the amended C10 at `(-5, 0.5)` and at `(5, 3)`. -/
theorem adjustLogDomainRanges_nested_witness :
    ((-5 : ℚ) ≤ 0 ∧ adjustLogDomainRanges (-5 : ℚ) 0.5 = (1, 2)) ∧
    ((0 : ℚ) < 5 ∧ adjustLogDomainRanges (5 : ℚ) 3 = (5, 3)) :=
  ⟨⟨by norm_num, by
      have h := (adjustLogDomainRanges_nested (-5 : ℚ) 0.5).1 (by norm_num)
      rw [h]
      norm_num⟩,
    ⟨by norm_num, (adjustLogDomainRanges_nested (5 : ℚ) 3).2.1 (by norm_num)⟩⟩

/-- C11: `adjustLogDomainRanges` changes its arguments only for `min ≤ 0`.
Then it returns `min' = 1.0` and `max' = max` if `max > 1.0`, else `2.0`, so
that `0 < min' < max'`; for instance `(-5, 2)` gives `(1.0, 2)` and
`(-5, 0.5)` gives `(1.0, 2.0)`.  For `min > 0` both values are returned
unchanged, also when `max ≤ min`. -/
theorem adjustLogDomainRanges_failsafe (min max : K) :
    (min ≤ 0 →
      adjustLogDomainRanges min max = (1.0, if 1.0 < max then max else 2.0) ∧
      0 < (adjustLogDomainRanges min max).1 ∧
      (adjustLogDomainRanges min max).1 < (adjustLogDomainRanges min max).2) ∧
    (0 < min → adjustLogDomainRanges min max = (min, max)) ∧
    adjustLogDomainRanges (-5 : ℚ) 2 = (1.0, 2) ∧
    adjustLogDomainRanges (-5 : ℚ) 0.5 = (1.0, 2.0) := by
  have e1 : (1.0 : K) = 1 := by norm_num
  have e2 : (2.0 : K) = 2 := by norm_num
  refine ⟨?_, ?_, ?_, ?_⟩
  · intro h
    simp only [adjustLogDomainRanges, h, if_true, e1, e2]
    by_cases hm : max ≤ 1
    · simp only [hm, if_true, not_lt.mpr hm, if_false]
      norm_num
    · have hlt : 1 < max := not_le.mp hm
      simp only [hm, if_false, hlt, if_true]
      norm_num
  · intro h
    simp [adjustLogDomainRanges, not_le.mpr h]
  · norm_num [adjustLogDomainRanges]
  · norm_num [adjustLogDomainRanges]

/-- Witness for C11 at `(-5, 0.5)`, where `min ≤ 0`, and at `(5, 3)`, where
`min > 0` and `max ≤ min`. -/
theorem adjustLogDomainRanges_failsafe_witness :
    ((-5 : ℚ) ≤ 0 ∧ (adjustLogDomainRanges (-5 : ℚ) 0.5).1 <
      (adjustLogDomainRanges (-5 : ℚ) 0.5).2) ∧
    ((0 : ℚ) < 5 ∧ adjustLogDomainRanges (5 : ℚ) 3 = (5, 3)) :=
  ⟨⟨by norm_num, ((adjustLogDomainRanges_failsafe (-5 : ℚ) 0.5).1 (by norm_num)).2.2⟩,
    ⟨by norm_num, (adjustLogDomainRanges_failsafe (5 : ℚ) 3).2.1 (by norm_num)⟩⟩

end LogRangeClaims

/-! ## Evaluation of `niceNumber` -/

section NiceNumberShape

variable {K : Type} [LinearOrderedField K] [FloorRing K]

/-- C14: `niceNumber(37, true) = 50`, `niceNumber(37, false) = 50` and
`niceNumber(120, true) = 200`. -/
theorem niceNumber_examples :
    niceNumber (37 : K) true = some 50 ∧ niceNumber (37 : K) false = some 50 ∧
    niceNumber (120 : K) true = some 200 := by
  have p1 : (qPow10 1 : K) = 10 := by norm_num [qPow10]
  have p2 : (qPow10 2 : K) = 100 := by norm_num [qPow10]
  have p3 : (qPow10 3 : K) = 1000 := by norm_num [qPow10]
  refine ⟨?_, ?_, ?_⟩
  · rw [niceNumber_of_decade (n := 1) (by rw [p1]; norm_num)
      (by rw [show (1 : ℤ) + 1 = 2 by norm_num, p2]; norm_num), p1]
    norm_num
  · rw [niceNumber_of_decade (n := 1) (by rw [p1]; norm_num)
      (by rw [show (1 : ℤ) + 1 = 2 by norm_num, p2]; norm_num), p1]
    norm_num
  · rw [niceNumber_of_decade (n := 2) (by rw [p2]; norm_num)
      (by rw [show (2 : ℤ) + 1 = 3 by norm_num, p3]; norm_num), p2]
    norm_num

end NiceNumberShape

/-! ## Claims about `setSize`, `isEmpty` and the comparison operators -/

section SizeAndEqualityClaims

variable {K : Type} [LinearOrderedField K]

/-- C15: `setSize(s)` with `s` different from the stored size stores `s` and
emits exactly one `updated` notification; with `s` equal to the stored size it
emits nothing and changes nothing.  Hence, for `s1 ≠ s2`, `setSize(s2)` after
`setSize(s1)` emits exactly one notification, and a second `setSize(s1)` emits
none.  In every case only the size member can change. -/
theorem setSize_spec (d : AbstractDomain K) (s s1 s2 : QSizeF K) :
    (d.m_size ≠ s → setSize s d = ({ d with m_size := s }, [Signal.updated])) ∧
    (d.m_size = s → setSize s d = (d, [])) ∧
    (s1 ≠ s2 → (setSize s2 (setSize s1 d).1).2 = [Signal.updated]) ∧
    (setSize s1 (setSize s1 d).1).2 = [] ∧
    (setSize s d).1 = { d with m_size := s } := by
  have hstate : ∀ t : QSizeF K, (setSize t d).1 = { d with m_size := t } := by
    intro t
    by_cases h : d.m_size = t
    · subst h
      simp [setSize]
    · simp [setSize, h]
  refine ⟨?_, ?_, ?_, ?_, hstate s⟩
  · intro h
    simp [setSize, h]
  · intro h
    simp [setSize, h]
  · intro h
    rw [hstate s1]
    simp [setSize, h]
  · rw [hstate s1]
    simp [setSize]

/-- Witness for C15 on `sampleDomain`, whose size is `100 × 200`: resizing to
`1 × 1` and then to `2 × 2` emits one notification on the second call. -/
theorem setSize_spec_witness :
    sampleDomain.m_size ≠ ⟨1, 1⟩ ∧ (⟨1, 1⟩ : QSizeF ℚ) ≠ ⟨2, 2⟩ ∧
    setSize ⟨1, 1⟩ sampleDomain = ({ sampleDomain with m_size := ⟨1, 1⟩ }, [Signal.updated]) ∧
    (setSize ⟨2, 2⟩ (setSize ⟨1, 1⟩ sampleDomain).1).2 = [Signal.updated] :=
  ⟨by decide, by decide,
    (setSize_spec sampleDomain ⟨1, 1⟩ ⟨1, 1⟩ ⟨2, 2⟩).1 (by decide),
    (setSize_spec sampleDomain ⟨1, 1⟩ ⟨1, 1⟩ ⟨2, 2⟩).2.2.1 (by decide)⟩

/-- C12: `operator==` is true exactly when the four differences of the bounds
`maxX`, `maxY`, `minX`, `minY` are all fuzzy-null.  Its value depends on the
bounds only, so two domains with the same bounds compare equal whatever their
sizes, zoom snapshots and flags are (Qt's `qFuzzyIsNull` accepts `0`), and
`operator!=` is the negation of `operator==`. -/
theorem operatorEq_spec (fuzzyIsNull : K → Bool) (d1 d2 : AbstractDomain K) :
    (operatorEq fuzzyIsNull d1 d2 = true ↔
      fuzzyIsNull (d1.m_maxX - d2.m_maxX) = true ∧
      fuzzyIsNull (d1.m_maxY - d2.m_maxY) = true ∧
      fuzzyIsNull (d1.m_minX - d2.m_minX) = true ∧
      fuzzyIsNull (d1.m_minY - d2.m_minY) = true) ∧
    (∀ e1 e2 : AbstractDomain K,
      e1.m_minX = d1.m_minX → e1.m_maxX = d1.m_maxX →
      e1.m_minY = d1.m_minY → e1.m_maxY = d1.m_maxY →
      e2.m_minX = d2.m_minX → e2.m_maxX = d2.m_maxX →
      e2.m_minY = d2.m_minY → e2.m_maxY = d2.m_maxY →
      operatorEq fuzzyIsNull e1 e2 = operatorEq fuzzyIsNull d1 d2) ∧
    (fuzzyIsNull 0 = true →
      d1.m_minX = d2.m_minX → d1.m_maxX = d2.m_maxX →
      d1.m_minY = d2.m_minY → d1.m_maxY = d2.m_maxY →
      operatorEq fuzzyIsNull d1 d2 = true) ∧
    qFuzzyIsNull (0 : K) = true ∧
    operatorNe fuzzyIsNull d1 d2 = !(operatorEq fuzzyIsNull d1 d2) := by
  refine ⟨?_, ?_, ?_, ?_, rfl⟩
  · simp [operatorEq, and_assoc]
  · intro e1 e2 a1 a2 a3 a4 b1 b2 b3 b4
    simp [operatorEq, a1, a2, a3, a4, b1, b2, b3, b4]
  · intro h0 a1 a2 a3 a4
    simp [operatorEq, a1, a2, a3, a4, h0]
  · simp [qFuzzyIsNull]

/-- Witness for C12: `sampleDomain` and a copy of it with another size, zoomed
and blocked, compare equal under Qt's `qFuzzyIsNull`. -/
theorem operatorEq_spec_witness :
    qFuzzyIsNull (0 : ℚ) = true ∧
    operatorEq qFuzzyIsNull sampleDomain
      { sampleDomain with m_size := ⟨1, 1⟩, m_zoomed := true, m_signalsBlocked := true,
                          m_zoomResetMaxX := 7 } = true :=
  ⟨(operatorEq_spec qFuzzyIsNull sampleDomain sampleDomain).2.2.2.1,
    (operatorEq_spec qFuzzyIsNull sampleDomain
      { sampleDomain with m_size := ⟨1, 1⟩, m_zoomed := true, m_signalsBlocked := true,
                          m_zoomResetMaxX := 7 }).2.2.1
      (operatorEq_spec qFuzzyIsNull sampleDomain sampleDomain).2.2.2.1 rfl rfl rfl rfl⟩

end SizeAndEqualityClaims

end AbstractDomain
